import Mathlib

/-!
Shallow embedding of the honeybibleManager progress-tracking engine
(src/app/date_parser.py, src/app/emoji.py, src/app/schedule.py,
src/app/analyzer.py) and proofs of the specification claims.

Strings are modelled as Lean String values; index-based scanning is done
over the underlying character lists with explicit fuel, since every loop
in the source advances its index strictly.  Python dictionaries are
modelled as insertion-ordered association lists and Python sets of date
strings as insertion-ordered duplicate-free lists, so all definitions
stay executable.
-/

set_option maxRecDepth 16384

namespace HB

/-- Python lexicographic comparison of two (month, day) tuples, strict. -/
def lexLt (a b : Nat × Nat) : Bool :=
  decide (a.1 < b.1) || (decide (a.1 = b.1) && decide (a.2 < b.2))

/-- Python lexicographic comparison of two (month, day) tuples, non-strict. -/
def lexLe (a b : Nat × Nat) : Bool :=
  decide (a.1 < b.1) || (decide (a.1 = b.1) && decide (a.2 ≤ b.2))

/-- Python min on two (month, day) tuples: the first argument wins ties. -/
def pyMin (a b : Nat × Nat) : Nat × Nat :=
  if lexLt b a then b else a

/-- MONTH_DAYS dictionary from date_parser.py; .get with default 31 is
modelled by the catch-all branch. -/
def monthDays : Nat → Nat
  | 1 => 31 | 2 => 28 | 3 => 31 | 4 => 30 | 5 => 31 | 6 => 30
  | 7 => 31 | 8 => 31 | 9 => 30 | 10 => 31 | 11 => 30 | 12 => 31
  | _ => 31

theorem monthDays_ge (m : Nat) : 28 ≤ monthDays m := by
  unfold monthDays; split <;> decide

theorem monthDays_le (m : Nat) : monthDays m ≤ 31 := by
  unfold monthDays; split <;> decide

/-- is_valid_date from date_parser.py. -/
def is_valid_date (month day : Nat) : Bool :=
  if ¬ (1 ≤ month ∧ month ≤ 12) then false
  else if ¬ (1 ≤ day ∧ day ≤ 31) then false
  else decide (day ≤ monthDays month)

theorem is_valid_date_iff (month day : Nat) :
    is_valid_date month day = true ↔
      1 ≤ month ∧ month ≤ 12 ∧ 1 ≤ day ∧ day ≤ 31 ∧ day ≤ monthDays month := by
  unfold is_valid_date
  split_ifs with h1 h2 <;> simp_all

/-- The canonical month/day token string, as produced by the f-string in
the source: no zero padding. -/
def dateStr (m d : Nat) : String :=
  toString m ++ "/" ++ toString d

/-- One calendar-day successor step of the loop body of expand_range:
increment the day and roll over past the end of the month. -/
def nextDay (m d : Nat) : Nat × Nat :=
  if monthDays m < d + 1 then (m + 1, 1) else (m, d + 1)

/-- The while loop of expand_range, with explicit fuel.  Each iteration
advances (month, day); the loop stops past month 12, at the end token, or
when the lexicographic guard fails. -/
def expandLoop : Nat → Nat → Nat → Nat → Nat → List String
  | 0, _, _, _, _ => []
  | fuel + 1, m, d, em, ed =>
    if lexLt (m, d) (em, ed) then
      let p := nextDay m d
      if 12 < p.1 then []
      else
        dateStr p.1 p.2 ::
          (if p = (em, ed) then [] else expandLoop fuel p.1 p.2 em ed)
    else []

/-- expand_range from date_parser.py.  The fuel 500 exceeds the number of
days the loop can ever enumerate (at most twelve months of at most 31
days). -/
def expand_range (sm sd em ed : Nat) : List String :=
  if lexLt (em, ed) (sm, sd) then []
  else expandLoop 500 sm sd em ed

example : expand_range 3 1 3 3 = ["3/2", "3/3"] := by decide
example : expand_range 1 30 2 2 = ["1/31", "2/1", "2/2"] := by decide
example : expand_range 3 5 3 1 = [] := by decide
example : expand_range 3 5 3 5 = [] := by decide
example : expand_range 3 5 3 6 = ["3/6"] := by decide
example : expand_range 2 4 2 7 = ["2/5", "2/6", "2/7"] := by decide

/-- ASCII decimal digit test, modelling the regex class \d on the digits
that appear in transcripts. -/
def isDigitChar (c : Char) : Bool :=
  decide ('0' ≤ c) && decide (c ≤ '9')

/-- Numeric value of an ASCII digit character. -/
def digitVal (c : Char) : Nat :=
  c.toNat - '0'.toNat

/-- Whitespace test modelling the regex class \s and str.isspace on the
whitespace characters that appear in transcripts. -/
def isSpaceChar (c : Char) : Bool :=
  c = ' ' || c = '\t' || c = '\n' || c = '\r' ||
    c = Char.ofNat 11 || c = Char.ofNat 12

/-- Character of a list at an index, as an Option. -/
def charAt (l : List Char) (i : Nat) : Option Char :=
  l.get? i

/-- Is the character at index i a digit (false past the end). -/
def digitAt (l : List Char) (i : Nat) : Bool :=
  match charAt l i with
  | some c => isDigitChar c
  | none => false

/-- Value of the digit at index i (0 past the end; only used under a
digitAt guard). -/
def digitValAt (l : List Char) (i : Nat) : Nat :=
  match charAt l i with
  | some c => digitVal c
  | none => 0

/-- Is the character at index i equal to c. -/
def charIs (l : List Char) (i : Nat) (c : Char) : Bool :=
  match charAt l i with
  | some c2 => c2 = c
  | none => false

/-- DATE_TOKEN_PATTERN.match at index i: the regex (\d{1,2})/(\d{1,2})
anchored at i, with the greedy one-or-two digit groups of the source
pattern.  Returns (month, day, end index).  When the first two characters
are digits the slash must follow them, since backtracking the first group
to one digit would put a digit where the slash is required. -/
def dateTokenMatch (l : List Char) (i : Nat) : Option (Nat × Nat × Nat) :=
  if digitAt l i then
    if digitAt l (i + 1) then
      if charIs l (i + 2) '/' && digitAt l (i + 3) then
        let month := 10 * digitValAt l i + digitValAt l (i + 1)
        if digitAt l (i + 4) then
          some (month, 10 * digitValAt l (i + 3) + digitValAt l (i + 4), i + 5)
        else
          some (month, digitValAt l (i + 3), i + 4)
      else none
    else if charIs l (i + 1) '/' && digitAt l (i + 2) then
      let month := digitValAt l i
      if digitAt l (i + 3) then
        some (month, 10 * digitValAt l (i + 2) + digitValAt l (i + 3), i + 4)
      else
        some (month, digitValAt l (i + 2), i + 3)
    else none
  else none

/-- DATE_TOKEN_PATTERN.search from index i: the leftmost position at or
after i where the token pattern matches.  Returns (start, month, day, end
index).  Fuel counts the candidate start positions still to try. -/
def searchFrom (l : List Char) : Nat → Nat → Option (Nat × Nat × Nat × Nat)
  | 0, _ => none
  | fuel + 1, j =>
    match dateTokenMatch l j with
    | some (m, d, e) => some (j, m, d, e)
    | none => searchFrom l fuel (j + 1)

/-- DATE_TOKEN_PATTERN.search(cleaned, index) of the source. -/
def dateTokenSearch (l : List Char) (i : Nat) : Option (Nat × Nat × Nat × Nat) :=
  searchFrom l (l.length + 1) i

/-- DAY_ONLY_PATTERN.match at index i: one or two digits, greedy.
Returns (day, end index). -/
def dayOnlyMatch (l : List Char) (i : Nat) : Option (Nat × Nat) :=
  if digitAt l i then
    if digitAt l (i + 1) then
      some (10 * digitValAt l i + digitValAt l (i + 1), i + 2)
    else
      some (digitVal ((charAt l i).getD '0'), i + 1)
  else none

/-- parse_date_or_day from date_parser.py. -/
def parse_date_or_day (l : List Char) (i : Nat) (current_month : Nat) :
    Option (Nat × Nat × Nat) :=
  match dateTokenMatch l i with
  | some (month, day, e) =>
    if is_valid_date month day then some (month, day, e) else none
  | none =>
    match dayOnlyMatch l i with
    | some (day, e) =>
      if is_valid_date current_month day then some (current_month, day, e)
      else none
    | none => none

/-- The inner separator loop of parse_dates (duplicated verbatim at lines
103-117 and 136-150 of the source): as long as the current character is a
tilde, hyphen or comma, parse the next date-or-day token, extend the
results by a range expansion or a single token, and advance.  Returns the
emitted tokens and the index at which the loop stopped. -/
def scanSeps (l : List Char) : Nat → Nat → Nat → Nat → List String × Nat
  | 0, idx, _, _ => ([], idx)
  | fuel + 1, idx, cm, cd =>
    match charAt l idx with
    | some c =>
      if c = '~' || c = '-' || c = ',' then
        match parse_date_or_day l (idx + 1) cm with
        | none => ([], idx + 1)
        | some (nm, nd, e) =>
          let first := if c = ',' then [dateStr nm nd] else expand_range cm cd nm nd
          let rest := scanSeps l fuel e nm nd
          (first ++ rest.1, rest.2)
      else ([], idx)
    | none => ([], idx)

/-- The outer while loop of parse_dates (lines 122-152): search for the
next date token, drop it if invalid, otherwise emit it and run the
separator loop, then continue searching from where that loop stopped. -/
def scanMain (l : List Char) : Nat → Nat → List String
  | 0, _ => []
  | fuel + 1, idx =>
    match dateTokenSearch l idx with
    | none => []
    | some (_, m, d, e) =>
      if is_valid_date m d then
        let inner := scanSeps l (l.length + 1) e m d
        dateStr m d :: (inner.1 ++ scanMain l fuel inner.2)
      else scanMain l fuel e

/-- The leading open-range branch of parse_dates (lines 89-120 of the
source): fires only when the cleaned message starts with a tilde or
hyphen and a carry date was supplied; if its date token is missing,
misplaced or invalid the source falls through (modelled by none) to the
main loop with index 0. -/
def parseLeading (l : List Char) (last_date : Option (Nat × Nat)) :
    Option (List String) :=
  match last_date with
  | none => none
  | some (lm, ld) =>
    match l.head? with
    | none => none
    | some c0 =>
      if c0 = '~' || c0 = '-' then
        match dateTokenSearch l 1 with
        | some (st, m, d, e) =>
          if st = 1 && is_valid_date m d then
            let inner := scanSeps l (l.length + 1) e m d
            some (expand_range lm ld m d ++ inner.1)
          else none
        | none => none
      else none

/-- parse_dates from date_parser.py.  The message is an Option so that
the Python None argument is representable; the source guard
(if not message) sends both None and the empty string to the empty list.
Whitespace removal models re.sub of the class \s+. -/
def parse_dates (message : Option String) (last_date : Option (Nat × Nat) := none) :
    List String :=
  match message with
  | none => []
  | some s =>
    if s = "" then []
    else
      let l := s.data.filter (fun c => !(isSpaceChar c))
      match parseLeading l last_date with
      | some results => results
      | none => scanMain l (l.length + 1) 0

example : parse_dates (some "3/15") = ["3/15"] := by decide
example : parse_dates (some "3/15,3/16") = ["3/15", "3/16"] := by decide
example : parse_dates (some "3/1~3/3") = ["3/1", "3/2", "3/3"] := by decide
example : parse_dates (some "3/1,3/5~3/7") = ["3/1", "3/5", "3/6", "3/7"] := by
  decide
example : parse_dates (some "3 / 15") = ["3/15"] := by decide
example : parse_dates (some "") = [] := by decide
example : parse_dates none = [] := by decide
example : parse_dates (some "13/1") = [] := by decide
example : parse_dates (some "3/15,16") = ["3/15", "3/16"] := by decide
example : parse_dates (some "~2/7") (some (2, 4)) = ["2/5", "2/6", "2/7"] := by
  decide
example : parse_dates (some "~2/7") = ["2/7"] := by decide
example : parse_dates (some "~2/7,2/10") (some (2, 4)) =
    ["2/5", "2/6", "2/7", "2/10"] := by decide
example : parse_dates (some "~2/4") (some (2, 4)) = [] := by decide
example : parse_dates (some "~ 2/7") (some (2, 4)) = ["2/5", "2/6", "2/7"] := by
  decide
example : parse_dates (some "2/6-7") = ["2/6", "2/7"] := by decide
example : parse_dates (some "2/6-8,10") = ["2/6", "2/7", "2/8", "2/10"] := by
  decide
example : parse_dates (some "1/30-2/2") = ["1/30", "1/31", "2/1", "2/2"] := by
  decide

theorem expandLoop_stop (fuel sm sd em ed : Nat)
    (h : lexLt (sm, sd) (em, ed) = false) :
    expandLoop fuel sm sd em ed = [] := by
  cases fuel with
  | zero => rfl
  | succ f => simp [expandLoop, h]

theorem expand_range_of_not_lt (sm sd em ed : Nat)
    (h : lexLt (sm, sd) (em, ed) = false) :
    expand_range sm sd em ed = [] := by
  unfold expand_range
  split
  · rfl
  · exact expandLoop_stop _ _ _ _ _ h

/-- C1: a leading open range uses the caller carry state.  With
carry_from (2, 4) the message starting with a tilde expands from the day
after the carry date through the end date; with no carry it yields only
the literal end date. -/
theorem leading_range_uses_carry :
    parse_dates (some "~2/7") (some (2, 4)) = ["2/5", "2/6", "2/7"] ∧
      parse_dates (some "~2/7") none = ["2/7"] := by
  constructor <;> decide

/-- C2 counterexample: the claimed value of parse_dates on the
month-boundary range message omits the literal start token, so the claim
as stated is false. -/
theorem month_boundary_claim_false :
    ¬ parse_dates (some "1/30~2/2") none = ["1/31", "2/1", "2/2"] := by
  decide

/-- C2 amended: parse_dates on the month-boundary range message emits the
literal start token and then the expansion across the month boundary. -/
theorem month_boundary_expansion :
    parse_dates (some "1/30~2/2") none = ["1/30", "1/31", "2/1", "2/2"] := by
  decide

/-- C3: range inclusivity.  A forward range includes both endpoints, an
equal-endpoint range emits the literal token exactly once, and whenever
the end token is chronologically at or before the start token the range
expansion contributes nothing. -/
theorem range_inclusivity :
    parse_dates (some "3/1~3/3") none = ["3/1", "3/2", "3/3"] ∧
      parse_dates (some "3/1~3/1") none = ["3/1"] ∧
      ∀ sm sd em ed : Nat, lexLt (sm, sd) (em, ed) = false →
        expand_range sm sd em ed = [] := by
  refine ⟨by decide, by decide, ?_⟩
  intro sm sd em ed h
  exact expand_range_of_not_lt sm sd em ed h

/-- Witness for C3 at a concrete reversed range. -/
theorem range_inclusivity_witness :
    lexLt (3, 5) (3, 1) = false ∧ expand_range 3 5 3 1 = [] :=
  ⟨by decide, range_inclusivity.2.2 3 5 3 1 (by decide)⟩

/-- A string is a canonical valid date token: it is the unpadded M/D
rendering of a month and day accepted by is_valid_date. -/
def ValidTok (s : String) : Prop :=
  ∃ m d, s = dateStr m d ∧ is_valid_date m d = true

theorem expandLoop_valid (fuel : Nat) :
    ∀ m d em ed : Nat, 1 ≤ m →
      ∀ s ∈ expandLoop fuel m d em ed, ValidTok s := by
  induction fuel with
  | zero =>
    intro m d em ed _ s hs
    simp [expandLoop] at hs
  | succ f ih =>
    intro m d em ed hm s hs
    rw [expandLoop] at hs
    by_cases hroll : monthDays m < d + 1
    · simp only [nextDay, if_pos hroll] at hs
      split at hs
      · split at hs
        · simp at hs
        · rename_i hm12
          have hv : is_valid_date (m + 1) 1 = true := by
            rw [is_valid_date_iff]
            have := monthDays_ge (m + 1)
            simp at hm12
            omega
          rcases List.mem_cons.mp hs with hh | ht
          · exact ⟨m + 1, 1, hh, hv⟩
          · split at ht
            · simp at ht
            · exact ih (m + 1) 1 em ed (by omega) s ht
      · simp at hs
    · simp only [nextDay, if_neg hroll] at hs
      split at hs
      · split at hs
        · simp at hs
        · rename_i hm12
          have hv : is_valid_date m (d + 1) = true := by
            rw [is_valid_date_iff]
            have h31 := monthDays_le m
            simp at hm12
            omega
          rcases List.mem_cons.mp hs with hh | ht
          · exact ⟨m, d + 1, hh, hv⟩
          · split at ht
            · simp at ht
            · exact ih m (d + 1) em ed hm s ht
      · simp at hs

theorem expand_range_valid (sm sd em ed : Nat) (hm : 1 ≤ sm) :
    ∀ s ∈ expand_range sm sd em ed, ValidTok s := by
  intro s hs
  unfold expand_range at hs
  split at hs
  · simp at hs
  · exact expandLoop_valid 500 sm sd em ed hm s hs

theorem parse_date_or_day_valid (l : List Char) (i cm m d e : Nat)
    (h : parse_date_or_day l i cm = some (m, d, e)) :
    is_valid_date m d = true := by
  unfold parse_date_or_day at h
  split at h
  · split at h
    · rename_i hv
      injection h with h2
      injection h2 with ha hb
      injection hb with hb hc
      subst ha; subst hb
      exact hv
    · exact absurd h (by simp)
  · split at h
    · split at h
      · rename_i hv
        injection h with h2
        injection h2 with ha hb
        injection hb with hb hc
        subst ha; subst hb
        exact hv
      · exact absurd h (by simp)
    · exact absurd h (by simp)

theorem scanSeps_valid (l : List Char) (fuel : Nat) :
    ∀ idx cm cd : Nat, is_valid_date cm cd = true →
      ∀ s ∈ (scanSeps l fuel idx cm cd).1, ValidTok s := by
  induction fuel with
  | zero =>
    intro idx cm cd _ s hs
    simp [scanSeps] at hs
  | succ f ih =>
    intro idx cm cd hcv s hs
    rw [scanSeps] at hs
    split at hs
    · rename_i c hc
      split at hs
      · split at hs
        · simp at hs
        · rename_i nm nd e hparse
          simp only [] at hs
          rcases List.mem_append.mp hs with hfst | hrest
          · split at hfst
            · rcases List.mem_singleton.mp hfst with rfl
              exact ⟨nm, nd, rfl, parse_date_or_day_valid l (idx + 1) cm nm nd e hparse⟩
            · have h1 : 1 ≤ cm := by
                have := (is_valid_date_iff cm cd).mp hcv
                omega
              exact expand_range_valid cm cd nm nd h1 s hfst
          · exact ih e nm nd (parse_date_or_day_valid l (idx + 1) cm nm nd e hparse) s hrest
      · simp at hs
    · simp at hs

theorem scanMain_valid (l : List Char) (fuel : Nat) :
    ∀ idx : Nat, ∀ s ∈ scanMain l fuel idx, ValidTok s := by
  induction fuel with
  | zero =>
    intro idx s hs
    simp [scanMain] at hs
  | succ f ih =>
    intro idx s hs
    rw [scanMain] at hs
    split at hs
    · simp at hs
    · rename_i st m d e hsearch
      split at hs
      · rename_i hv
        simp only [] at hs
        rcases List.mem_cons.mp hs with hh | ht
        · exact ⟨m, d, hh, hv⟩
        · rcases List.mem_append.mp ht with hinner | hmain
          · exact scanSeps_valid l (l.length + 1) e m d hv s hinner
          · exact ih _ s hmain
      · exact ih e s hs

theorem parseLeading_valid (l : List Char) (last_date : Option (Nat × Nat))
    (hc : ∀ lm ld, last_date = some (lm, ld) → is_valid_date lm ld = true)
    (r : List String) (h : parseLeading l last_date = some r) :
    ∀ s ∈ r, ValidTok s := by
  intro s hs
  unfold parseLeading at h
  split at h
  · exact absurd h (by simp)
  · rename_i lm ld
    split at h
    · exact absurd h (by simp)
    · rename_i c0 hhead
      split at h
      · split at h
        · rename_i st m d e hsearch
          split at h
          · rename_i hok
            simp only [Bool.and_eq_true, decide_eq_true_eq] at hok
            injection h with h2
            subst h2
            rcases List.mem_append.mp hs with hexp | hinner
            · have hlmv : is_valid_date lm ld = true := hc lm ld rfl
              have h1 : 1 ≤ lm := by
                have := (is_valid_date_iff lm ld).mp hlmv
                omega
              exact expand_range_valid lm ld m d h1 s hexp
            · exact scanSeps_valid l (l.length + 1) e m d hok.2 s hinner
          · exact absurd h (by simp)
        · exact absurd h (by simp)
      · exact absurd h (by simp)

/-- C9: every token returned by parse_dates, for any message and any
valid carry date, is a canonical M/D string whose month is in 1..12 and
whose day is between 1 and the fixed days-in-month table entry. -/
theorem parse_dates_valid (message : Option String)
    (last_date : Option (Nat × Nat))
    (hc : ∀ lm ld, last_date = some (lm, ld) → is_valid_date lm ld = true) :
    ∀ s ∈ parse_dates message last_date, ValidTok s := by
  intro s hs
  match message with
  | none => simp [parse_dates] at hs
  | some s0 =>
    rw [parse_dates] at hs
    split at hs
    · simp at hs
    · simp only [] at hs
      split at hs
      · rename_i r hr
        exact parseLeading_valid _ last_date hc r hr s hs
      · exact scanMain_valid _ _ 0 s hs

/-- Witness for C9 at a concrete message and carry date. -/
theorem parse_dates_valid_witness :
    is_valid_date 2 4 = true ∧
      ∀ s ∈ parse_dates (some "~2/7,13/5,2/30") (some (2, 4)), ValidTok s := by
  refine ⟨by decide, ?_⟩
  exact parse_dates_valid (some "~2/7,13/5,2/30") (some (2, 4))
    (by intro lm ld h; injection h with h2; cases h2; decide)

/-! Emoji module (src/app/emoji.py). -/

/-- Does the character list start with the given pattern (substring
anchored at the head). -/
def startsWithSeq : List Char → List Char → Bool
  | _, [] => true
  | [], _ :: _ => false
  | c :: cs, p :: ps => decide (c = p) && startsWithSeq cs ps

/-- Python substring containment (the in operator on strings). -/
def containsSeq : List Char → List Char → Bool
  | [], pat => startsWithSeq [] pat
  | c :: cs, pat => startsWithSeq (c :: cs) pat || containsSeq cs pat

/-- EMOJI_RANGES from emoji.py. -/
def EMOJI_RANGES : List (Nat × Nat) :=
  [(0x1F300, 0x1F5FF), (0x1F600, 0x1F64F), (0x1F680, 0x1F6FF),
   (0x1F700, 0x1F77F), (0x1F780, 0x1F7FF), (0x1F800, 0x1F8FF),
   (0x1F900, 0x1F9FF), (0x1FA00, 0x1FA6F), (0x1FA70, 0x1FAFF),
   (0x2600, 0x26FF), (0x2700, 0x27BF), (0x2300, 0x23FF),
   (0x2B00, 0x2BFF), (0x1F1E6, 0x1F1FF)]

/-- is_emoji_char from emoji.py. -/
def is_emoji_char (c : Char) : Bool :=
  EMOJI_RANGES.any (fun p => decide (p.1 ≤ c.toNat) && decide (c.toNat ≤ p.2))

/-- is_emoji_modifier from emoji.py (skin-tone modifier range). -/
def is_emoji_modifier (c : Char) : Bool :=
  decide (0x1F3FB ≤ c.toNat) && decide (c.toNat ≤ 0x1F3FF)

/-- is_emoji_component from emoji.py: emoji, modifier, variation selector
or zero width joiner. -/
def is_emoji_component (c : Char) : Bool :=
  is_emoji_char c || is_emoji_modifier c ||
    decide (c.toNat = 0xFE0F) || decide (c.toNat = 0x200D)

/-- extract_emoji_sequence from emoji.py: a maximal emoji-component run
starting at an emoji character.  Returns the run and the index just past
it. -/
def extract_emoji_sequence (l : List Char) (i : Nat) :
    Option (List Char) × Nat :=
  match charAt l i with
  | none => (none, i)
  | some c =>
    if is_emoji_char c then
      let comps := (l.drop (i + 1)).takeWhile is_emoji_component
      (some (c :: comps), i + 1 + comps.length)
    else (none, i)

/-- normalize_emoji from emoji.py: remove every variation selector
U+FE0F. -/
def normalize_emoji (s : String) : String :=
  String.mk (s.data.filter (fun c => !(decide (c.toNat = 0xFE0F))))

/-- Hangul syllable block, the character class of TEXT_EMOTICON_PATTERN. -/
def isHangul (c : Char) : Bool :=
  decide (0xAC00 ≤ c.toNat) && decide (c.toNat ≤ 0xD7A3)

/-- Python str.rstrip on a character list. -/
def rstripList (l : List Char) : List Char :=
  (l.reverse.dropWhile isSpaceChar).reverse

/-- TEXT_EMOTICON_PATTERN searched against the trimmed message: the regex
anchors a parenthesized nonempty hangul run at the end of the string, so
after rstrip a match exists exactly when the string ends with a closing
parenthesis preceded by one or more hangul characters preceded by an
opening parenthesis; group(0) is that parenthesized run. -/
def textEmoticonAtEnd (trimmed : List Char) : Option (List Char) :=
  match trimmed.reverse with
  | ')' :: rest =>
    let hang := rest.takeWhile isHangul
    if hang.isEmpty then none
    else
      match (rest.drop hang.length).head? with
      | some '(' => some ('(' :: (hang.reverse ++ [')']))
      | _ => none
  | _ => none

/-- The pictograph scan loop of extract_trailing_emoji: walk the trimmed
message, remembering the last emoji-component run and the index just past
it. -/
def trailingScan (l : List Char) :
    Nat → Nat → Option (List Char × Nat) → Option (List Char × Nat)
  | 0, _, last => last
  | fuel + 1, idx, last =>
    match charAt l idx with
    | none => last
    | some c =>
      if is_emoji_char c then
        match extract_emoji_sequence l idx with
        | (some seq, e) => trailingScan l fuel e (some (seq, e))
        | (none, _) => trailingScan l fuel (idx + 1) last
      else trailingScan l fuel (idx + 1) last

/-- extract_trailing_emoji from emoji.py: after trimming trailing
whitespace, first try the parenthesized text emoticon anchored at the
end, then the last pictograph run, which must end exactly at the last
character. -/
def extract_trailing_emoji (text : String) : Option String :=
  let trimmed := rstripList text.data
  if trimmed.isEmpty then none
  else
    match textEmoticonAtEnd trimmed with
    | some tokn => some (String.mk tokn)
    | none =>
      match trailingScan trimmed (trimmed.length + 1) 0 none with
      | some (seq, e) =>
        if e = trimmed.length then some (String.mk seq) else none
      | none => none

example : extract_trailing_emoji "3/15😀" = some "😀" := by decide
example : extract_trailing_emoji "3/15" = none := by decide
example : extract_trailing_emoji "2/2 구약 신약 (무표정)" = some "(무표정)" := by
  decide
example : extract_trailing_emoji "2/3~6 구약 신약(연필)" = some "(연필)" := by
  decide
example : extract_trailing_emoji "😀안녕" = none := by decide
example : extract_trailing_emoji "3/15 😀  " = some "😀" := by decide

/-- message_contains_emoji from analyzer.py: raw substring containment
first, then normalized containment of the assigned key. -/
def message_contains_emoji (message emoji_key emoji_raw : String) : Bool :=
  if !(emoji_raw = "") && containsSeq message.data emoji_raw.data then true
  else containsSeq (normalize_emoji message).data emoji_key.data

example : message_contains_emoji "hello😀world" "😀" "😀" = true := by decide
example : message_contains_emoji "hello☀️world" "☀" "" = true := by decide
example : message_contains_emoji "hello world" "😀" "😀" = false := by decide

/-! Participant-name normalization (analyzer.py lines 16-31). -/

/-- _STRIP_WORDS from analyzer.py. -/
def STRIP_WORDS : List String :=
  ["광천", "누나", "오빠", "언니"]

/-- Remove every occurrence of the pattern from the list, scanning left
to right and resuming after each removed occurrence: Python str.replace
with an empty replacement.  Fuel bounds the scan by the list length. -/
def removeSeqF : Nat → List Char → List Char → List Char
  | 0, l, _ => l
  | fuel + 1, l, pat =>
    match l with
    | [] => []
    | c :: cs =>
      if !pat.isEmpty && startsWithSeq l pat then
        removeSeqF fuel (l.drop pat.length) pat
      else c :: removeSeqF fuel cs pat

/-- The stripping stage of normalize_user_name: remove the platform
words, then drop emoji components, digits, whitespace and ASCII
letters. -/
def normalizeStripped (name : String) : String :=
  let afterWords := STRIP_WORDS.foldl
    (fun acc w => removeSeqF acc.length acc w.data) name.data
  String.mk (afterWords.filter (fun ch =>
    !(is_emoji_component ch || isDigitChar ch || isSpaceChar ch ||
      (decide ('A' ≤ ch) && decide (ch ≤ 'Z')) ||
      (decide ('a' ≤ ch) && decide (ch ≤ 'z')))))

/-- normalize_user_name from analyzer.py: keep the stripped name unless
stripping removed everything, in which case return the original name. -/
def normalize_user_name (name : String) : String :=
  let result := normalizeStripped name
  if result = "" then name else result

example : normalize_user_name "광천 강창우" = "강창우" := by decide
example : normalize_user_name "김형은 누나22" = "김형은" := by decide
example : normalize_user_name "user1" = "user1" := by decide

/-- C10: normalization never erases an identity.  A nonempty sender
yields a nonempty key, and when stripping removes every character the
original sender string is returned unchanged. -/
theorem normalize_user_name_nonempty (name : String) (h : name ≠ "") :
    normalize_user_name name ≠ "" ∧
      (normalizeStripped name = "" → normalize_user_name name = name) := by
  constructor
  · by_cases hstrip : normalizeStripped name = ""
    · simp [normalize_user_name, hstrip]
      exact h
    · simp [normalize_user_name, hstrip]
  · intro hstrip
    simp [normalize_user_name, hstrip]

/-- Witness for C10 at a sender made only of ASCII letters and digits,
which strips to nothing. -/
theorem normalize_user_name_nonempty_witness :
    normalize_user_name "abc123" = "abc123" ∧
      normalize_user_name "abc123" ≠ "" :=
  ⟨(normalize_user_name_nonempty "abc123" (by decide)).2 (by decide),
    (normalize_user_name_nonempty "abc123" (by decide)).1⟩

/-! Reading-plan calendar (src/app/schedule.py).  All plan dates lie in
the year 2026, which is not a leap year, so the datetime iteration of the
source is modelled by stepping (month, day) pairs through the fixed
days-in-month table; weekdays come from the day count since 2026-01-01,
which was a Thursday (weekday 3 with Monday = 0). -/

/-- Days of the year 2026 before the first day of the given month. -/
def cumDays : Nat → Nat
  | 1 => 0 | 2 => 31 | 3 => 59 | 4 => 90 | 5 => 120 | 6 => 151
  | 7 => 181 | 8 => 212 | 9 => 243 | 10 => 273 | 11 => 304 | 12 => 334
  | _ => 0

/-- datetime.date(2026, m, d).weekday(): Monday is 0, Sunday is 6. -/
def weekday2026 (m d : Nat) : Nat :=
  (cumDays m + d + 2) % 7

example : weekday2026 1 1 = 3 := by decide
example : weekday2026 2 2 = 0 := by decide
example : weekday2026 2 8 = 6 := by decide
example : weekday2026 2 3 = 1 := by decide
example : weekday2026 3 15 = 6 := by decide

/-- Calendar successor within 2026, used by the date iteration of
_generate_dates. -/
def next2026 (p : Nat × Nat) : Nat × Nat :=
  if monthDays p.1 < p.2 + 1 then (p.1 + 1, 1) else (p.1, p.2 + 1)

/-- The per-range day loop of _generate_dates: walk from the current day
to the end of the range, keeping days whose weekday is not excluded. -/
def genLoop : Nat → Nat × Nat → Nat × Nat → List Nat → List String
  | 0, _, _, _ => []
  | fuel + 1, cur, e, excl =>
    if lexLe cur e then
      (if excl.any (fun w => decide (w = weekday2026 cur.1 cur.2)) then []
       else [dateStr cur.1 cur.2]) ++ genLoop fuel (next2026 cur) e excl
    else []

/-- _generate_dates from schedule.py over month/day ranges inside 2026.
The source accumulates into a set; the ranges are disjoint and each day
is visited once, so the list it produces is duplicate free and only
membership is ever consumed.  Fuel 400 exceeds the length in days of
every range. -/
def generate_dates (ranges : List ((Nat × Nat) × (Nat × Nat)))
    (excl : List Nat) : List String :=
  ranges.foldl (fun acc r => acc ++ genLoop 400 r.1 r.2 excl) []

/-- _BIBLE_RANGES from schedule.py (2026 month/day endpoints). -/
def BIBLE_RANGES : List ((Nat × Nat) × (Nat × Nat)) :=
  [((2, 2), (5, 30)), ((6, 8), (9, 26)), ((10, 5), (12, 19))]

/-- _NT_RANGES from schedule.py (2026 month/day endpoints). -/
def NT_RANGES : List ((Nat × Nat) × (Nat × Nat)) :=
  [((2, 2), (5, 29)), ((6, 8), (9, 25)), ((10, 5), (12, 18))]

/-- BIBLE_DATES from schedule.py: the old-testament plan, Sundays
excluded. -/
def BIBLE_DATES : List String :=
  generate_dates BIBLE_RANGES [6]

/-- NT_DATES from schedule.py: the new-testament plan, Saturdays and
Sundays excluded. -/
def NT_DATES : List String :=
  generate_dates NT_RANGES [5, 6]

example : "2/2" ∈ BIBLE_DATES := by decide
example : "2/8" ∉ BIBLE_DATES := by decide
example : "2/8" ∉ NT_DATES := by decide
example : "2/3" ∈ NT_DATES := by decide
example : "2/7" ∈ BIBLE_DATES := by decide
example : "2/7" ∉ NT_DATES := by decide

/-- detect_schedule from schedule.py: keyword flags over all messages,
old-testament pair checked first. -/
def detect_schedule (rows : List (String × String)) : Option (List String) :=
  let has_genesis := rows.any (fun r => containsSeq r.2.data "창세기".data)
  let has_exodus := rows.any (fun r => containsSeq r.2.data "출애굽기".data)
  let has_matthew := rows.any (fun r => containsSeq r.2.data "마태복음".data)
  let has_mark := rows.any (fun r => containsSeq r.2.data "마가복음".data)
  if has_genesis && has_exodus then some BIBLE_DATES
  else if has_matthew && has_mark then some NT_DATES
  else none

/-! Aggregation engine (src/app/analyzer.py, analyze_chat with rows
passed directly; the CSV ingestion path is the out-of-scope adapter).
Python dictionaries are insertion-ordered association lists; Python sets
of date strings are insertion-ordered duplicate-free lists. -/

/-- MAX_DATES_PER_MESSAGE from analyzer.py. -/
def MAX_DATES_PER_MESSAGE : Nat := 14

/-- Dictionary lookup on an insertion-ordered association list. -/
def alistGet {κ β : Type} [DecidableEq κ] : List (κ × β) → κ → Option β
  | [], _ => none
  | (k, v) :: rest, key => if k = key then some v else alistGet rest key

/-- Dictionary write on an insertion-ordered association list: an
existing key keeps its position, a new key is appended, as in Python. -/
def alistUpd {κ β : Type} [DecidableEq κ]
    (l : List (κ × β)) (key : κ) (f : Option β → β) : List (κ × β) :=
  match l with
  | [] => [(key, f none)]
  | (k, v) :: rest =>
    if k = key then (k, f (some v)) :: rest
    else (k, v) :: alistUpd rest key f

/-- Python set insertion on the insertion-ordered list model. -/
def insertSet (s : List String) (d : String) : List String :=
  if d ∈ s then s else s ++ [d]

/-- The Pass-1 tally state: emoji_counts, emoji_order and emoji_raw of
analyze_chat. -/
structure P1State where
  counts : List (String × List (String × Nat))
  order : List (String × List String)
  raw : List (String × List (String × String))
deriving DecidableEq

/-- The tally update of Pass 1 for a qualifying row (analyzer.py lines
160-168): bump the normalized key count, remember first-seen order and
the first raw display form. -/
def pass1Tally (st : P1State) (user te : String) : P1State :=
  let key := normalize_emoji te
  { counts := alistUpd st.counts user (fun old =>
      let c := old.getD []
      alistUpd c key (fun n => n.getD 0 + 1)),
    order := alistUpd st.order user (fun old =>
      let o := old.getD []
      if key ∈ o then o else o ++ [key]),
    raw := alistUpd st.raw user (fun old =>
      let rm := old.getD []
      if (alistGet rm key).isSome then rm else rm ++ [(key, te)]) }

/-- One Pass-1 row (analyzer.py lines 148-168): skip rows with no dates,
with more than the cap of dates, or with no trailing mark; otherwise
tally. -/
def pass1Step (st : P1State) (row : String × String) : P1State :=
  let dates := parse_dates (some row.2) none
  if dates.isEmpty then st
  else if MAX_DATES_PER_MESSAGE < dates.length then st
  else
    match extract_trailing_emoji row.2 with
    | none => st
    | some te => pass1Tally st row.1 te

/-- The maximum of the tally values, as computed by max over the
dictionary values (counts is nonempty at the call site). -/
def maxTally (counts : List (String × Nat)) : Nat :=
  (counts.map (fun p => p.2)).foldl Nat.max 0

/-- choose_assigned_emoji from analyzer.py: the first key in first-seen
order whose tally equals the maximum; empty string for an empty tally,
and the first tally key as fallback when the order list misses the
maximum. -/
def choose_assigned_emoji (counts : List (String × Nat))
    (order : List String) : String :=
  if counts.isEmpty then ""
  else
    let max_count := maxTally counts
    match order.find? (fun e => decide (alistGet counts e = some max_count)) with
    | some e => e
    | none =>
      match counts.head? with
      | some p => p.1
      | none => ""

example : choose_assigned_emoji [("😀", 3), ("🔥", 1)] ["😀", "🔥"] = "😀" := by
  decide
example : choose_assigned_emoji [("😀", 2), ("🔥", 2)] ["🔥", "😀"] = "🔥" := by
  decide
example : choose_assigned_emoji [] [] = "" := by decide
example : choose_assigned_emoji [("😀", 3), ("🔥", 1)] ["🎉"] = "😀" := by
  decide

/-- The user_emojis assignment loop of analyze_chat (lines 175-182):
participant to (normalized key, display form). -/
def computeUserEmojis (st : P1State) : List (String × (String × String)) :=
  st.counts.foldl (fun acc p =>
    let order := (alistGet st.order p.1).getD []
    let key := choose_assigned_emoji p.2 order
    if key = "" then acc
    else
      let raws := (alistGet st.raw p.1).getD []
      acc ++ [(p.1, (key, (alistGet raws key).getD key))]) []

/-- Python str.split on a single separator character. -/
def splitOnChar (l : List Char) (c : Char) : List (List Char) :=
  match l with
  | [] => [[]]
  | x :: xs =>
    let r := splitOnChar xs c
    if x = c then [] :: r
    else
      match r with
      | [] => [[x]]
      | h :: t => (x :: h) :: t

/-- Python int() on the digit strings that date tokens carry: none for an
empty or non-digit string, modelling the ValueError branch. -/
def digitsToNat (l : List Char) : Option Nat :=
  if !l.isEmpty && l.all isDigitChar then
    some (l.foldl (fun acc c => 10 * acc + digitVal c) 0)
  else none

/-- d.split on the slash plus int conversion of _max_date, returning none
where the source catches ValueError or TypeError. -/
def parseMD (s : String) : Option (Nat × Nat) :=
  match splitOnChar s.data '/' with
  | [a, b] =>
    match digitsToNat a, digitsToNat b with
    | some m, some d => some (m, d)
    | _, _ => none
  | _ => none

/-- _max_date from analyzer.py: lexicographic maximum of the parseable
tokens. -/
def max_date (dates : List String) : Option (Nat × Nat) :=
  dates.foldl (fun best d =>
    match parseMD d with
    | none => best
    | some t =>
      match best with
      | none => some t
      | some b => if lexLt b t then some t else best) none

/-- The forward-only TrackState advance of Pass 2: set the key to the
maximum of the surviving dates unless an equal or later date is already
recorded. -/
def advanceLast {κ : Type} [DecidableEq κ]
    (lastMap : List (κ × (Nat × Nat))) (k : κ) (dates : List String) :
    List (κ × (Nat × Nat)) :=
  match max_date dates with
  | none => lastMap
  | some md =>
    match alistGet lastMap k with
    | none => alistUpd lastMap k (fun _ => md)
    | some prev =>
      if lexLt prev md then alistUpd lastMap k (fun _ => md) else lastMap

/-- Output record of single-track mode. -/
structure SingleEntry where
  dates : List String
  emoji : String
deriving DecidableEq

/-- Pass-2 state of single-track mode: users and user_last_date. -/
structure P2SState where
  users : List (String × SingleEntry)
  last : List (String × (Nat × Nat))
deriving DecidableEq

/-- The collection part of a surviving single-mode row (analyzer.py lines
287-297): union the dates into the entry created on demand, then advance
the track state. -/
def singleUpdate (st : P2SState) (user raw : String) (dates2 : List String) :
    P2SState :=
  { users := alistUpd st.users user (fun old =>
      match old with
      | some e => { e with dates := dates2.foldl insertSet e.dates }
      | none => { dates := dates2.foldl insertSet [], emoji := raw }),
    last := advanceLast st.last user dates2 }

/-- One Pass-2 row in single mode (analyzer.py lines 216-224 and
242-251, 279-297): skip unassigned participants, mark mismatches, empty
or oversized extractions, and rows whose dates are all filtered out by a
bound calendar. -/
def pass2StepSingle (sched : Option (List String))
    (uE : List (String × (String × String)))
    (st : P2SState) (row : String × String) : P2SState :=
  match alistGet uE row.1 with
  | none => st
  | some a =>
    if !(message_contains_emoji row.2 a.1 a.2) then st
    else
      let dates := parse_dates (some row.2) (alistGet st.last row.1)
      if dates.isEmpty then st
      else if MAX_DATES_PER_MESSAGE < dates.length then st
      else
        let dates2 :=
          match sched with
          | some cal => dates.filter (fun d => decide (d ∈ cal))
          | none => dates
        if dates2.isEmpty then st
        else singleUpdate st row.1 a.2 dates2

/-- extract_tracks from analyzer.py, as (has old, has new) flags. -/
def extract_tracks (m : String) : Bool × Bool :=
  (containsSeq m.data "구약".data, containsSeq m.data "신약".data)

example : extract_tracks "2/2 구약 🐷" = (true, false) := by decide
example : extract_tracks "2/2 신약 🐷" = (false, true) := by decide
example : extract_tracks "2/2 구약 신약 🐷" = (true, true) := by decide
example : extract_tracks "2/2 🐷" = (false, false) := by decide

/-- The carry-date selection of dual mode (analyzer.py lines 230-240):
the track state of the single tagged track, or for a both-tracks row the
earlier of the two states, or whichever exists. -/
def dualCarry (lastOld lastNew : Option (Nat × Nat)) (hasOld hasNew : Bool) :
    Option (Nat × Nat) :=
  if hasOld && !hasNew then lastOld
  else if hasNew && !hasOld then lastNew
  else
    match lastOld, lastNew with
    | some a, some b => some (pyMin a b)
    | some a, none => some a
    | none, x => x

/-- Output record of dual-track mode. -/
structure DualEntry where
  dates_old : List String
  dates_new : List String
  emoji : String
deriving DecidableEq

/-- Pass-2 state of dual mode: users and the per-(user, track)
user_last_date. -/
structure P2DState where
  users : List (String × DualEntry)
  last : List ((String × String) × (Nat × Nat))
deriving DecidableEq

/-- The collection part of a surviving dual-mode row (analyzer.py lines
259-278). -/
def dualUpdate (st : P2DState) (user raw : String)
    (dates_old dates_new : List String) : P2DState :=
  { users := alistUpd st.users user (fun old =>
      match old with
      | some e =>
        { e with
          dates_old := dates_old.foldl insertSet e.dates_old,
          dates_new := dates_new.foldl insertSet e.dates_new }
      | none =>
        { dates_old := dates_old.foldl insertSet [],
          dates_new := dates_new.foldl insertSet [],
          emoji := raw }),
    last := advanceLast (advanceLast st.last (user, "old") dates_old)
      (user, "new") dates_new }

/-- One Pass-2 row in dual mode (analyzer.py lines 216-241 and 246-278):
as in single mode, plus track routing by keyword and the fixed per-track
calendars. -/
def pass2StepDual (uE : List (String × (String × String)))
    (st : P2DState) (row : String × String) : P2DState :=
  match alistGet uE row.1 with
  | none => st
  | some a =>
    if !(message_contains_emoji row.2 a.1 a.2) then st
    else
      let tr := extract_tracks row.2
      if !tr.1 && !tr.2 then st
      else
        let lastOld := alistGet st.last (row.1, "old")
        let lastNew := alistGet st.last (row.1, "new")
        let dates := parse_dates (some row.2) (dualCarry lastOld lastNew tr.1 tr.2)
        if dates.isEmpty then st
        else if MAX_DATES_PER_MESSAGE < dates.length then st
        else
          let dates_old :=
            if tr.1 then dates.filter (fun d => decide (d ∈ BIBLE_DATES)) else []
          let dates_new :=
            if tr.2 then dates.filter (fun d => decide (d ∈ NT_DATES)) else []
          if dates_old.isEmpty && dates_new.isEmpty then st
          else dualUpdate st row.1 a.2 dates_old dates_new

/-- analyze_chat from analyzer.py in single mode, over rows passed
directly: normalize sender names, run Pass 1 and the mark assignment,
detect the reading plan, run Pass 2. -/
def analyze_chat_single (rows : List (String × String)) :
    List (String × SingleEntry) :=
  let rows2 := rows.map (fun r => (normalize_user_name r.1, r.2))
  if rows2.isEmpty then []
  else
    let st1 := rows2.foldl pass1Step { counts := [], order := [], raw := [] }
    let uE := computeUserEmojis st1
    if uE.isEmpty then []
    else
      let sched := detect_schedule rows2
      (rows2.foldl (pass2StepSingle sched uE) { users := [], last := [] }).users

/-- analyze_chat from analyzer.py in dual mode: both fixed calendars are
bound, one per track. -/
def analyze_chat_dual (rows : List (String × String)) :
    List (String × DualEntry) :=
  let rows2 := rows.map (fun r => (normalize_user_name r.1, r.2))
  if rows2.isEmpty then []
  else
    let st1 := rows2.foldl pass1Step { counts := [], order := [], raw := [] }
    let uE := computeUserEmojis st1
    if uE.isEmpty then []
    else
      (rows2.foldl (pass2StepDual uE) { users := [], last := [] }).users

example :
    analyze_chat_single [("u1", "3/15😀"), ("u1", "3/16😀")] =
      [("u1", { dates := ["3/15", "3/16"], emoji := "😀" })] := by decide

example : analyze_chat_single [("u1", "3/15")] = [] := by decide

/-- C5: dual-track continuity independence.  The carry for a row tagged
only old is the old-track state, symmetrically for new, and a both-tracks
row takes the earlier of the two states or whichever exists; in the
concrete scenario the message tagged old starting with a tilde expands
from the old-track state 2/2 (its expansion contributes 2/3, 2/4 and 2/5
to the old set), not from the new-track state 2/3. -/
theorem dual_track_carry_independence :
    analyze_chat_dual
        [("u", "구약 2/2 😀"), ("u", "신약 2/3 😀"), ("u", "~2/5 구약 😀")] =
      [("u", { dates_old := ["2/2", "2/3", "2/4", "2/5"],
               dates_new := ["2/3"], emoji := "😀" })] ∧
    (∀ lo ln : Option (Nat × Nat), dualCarry lo ln true false = lo) ∧
    (∀ lo ln : Option (Nat × Nat), dualCarry lo ln false true = ln) ∧
    (∀ a b : Nat × Nat, dualCarry (some a) (some b) true true = some (pyMin a b)) ∧
    (∀ a : Nat × Nat, dualCarry (some a) none true true = some a) ∧
    (∀ b : Nat × Nat, dualCarry none (some b) true true = some b) ∧
    dualCarry none none true true = none := by
  refine ⟨by decide, ?_, ?_, ?_, ?_, ?_, rfl⟩ <;> intros <;> rfl

/-- List.find? returns the first satisfying element: everything before it
in the list fails the predicate. -/
theorem find_first_split {α : Type} (p : α → Bool) (l : List α) (a : α)
    (h : l.find? p = some a) :
    p a = true ∧
      ∃ l1 l2, l = l1 ++ a :: l2 ∧ ∀ x ∈ l1, p x = false := by
  induction l with
  | nil => simp [List.find?] at h
  | cons x xs ih =>
    cases hpx : p x
    · rw [List.find?_cons_of_neg _ (by simp [hpx])] at h
      obtain ⟨hpa, l1, l2, heq, hl1⟩ := ih h
      refine ⟨hpa, x :: l1, l2, by simp [heq], ?_⟩
      intro y hy
      rcases List.mem_cons.mp hy with rfl | hy2
      · exact hpx
      · exact hl1 y hy2
    · rw [List.find?_cons_of_pos _ hpx] at h
      injection h with h2
      subst h2
      exact ⟨hpx, [], xs, rfl, by simp⟩

/-- C6: mark assignment is a majority vote with a first-seen tie-break.
Whenever some key in the first-seen order achieves the maximum tally, the
assigned mark achieves the maximum tally and every key seen before it in
first-seen order does not, and on the concrete tied tally with first-seen
order B before A the assigned mark is B. -/
theorem mark_majority_tiebreak :
    choose_assigned_emoji [("A", 2), ("B", 2)] ["B", "A"] = "B" ∧
    ∀ (counts : List (String × Nat)) (order : List String),
      counts ≠ [] →
      (∃ e ∈ order, alistGet counts e = some (maxTally counts)) →
      alistGet counts (choose_assigned_emoji counts order) =
          some (maxTally counts) ∧
        ∃ l1 l2, order = l1 ++ choose_assigned_emoji counts order :: l2 ∧
          ∀ e ∈ l1, alistGet counts e ≠ some (maxTally counts) := by
  refine ⟨by decide, ?_⟩
  intro counts order hne hex
  have hni : ¬(counts.isEmpty = true) := by
    simp [List.isEmpty_iff]
    exact hne
  obtain ⟨e0, hmem, he0⟩ := hex
  have hsome : (order.find?
      (fun e => decide (alistGet counts e = some (maxTally counts)))).isSome := by
    rw [List.find?_isSome]
    exact ⟨e0, hmem, by simp [he0]⟩
  obtain ⟨r, hr⟩ := Option.isSome_iff_exists.mp hsome
  have hchoose : choose_assigned_emoji counts order = r := by
    simp only [choose_assigned_emoji, if_neg hni, hr]
  obtain ⟨hpr, l1, l2, heq, hl1⟩ := find_first_split _ order r hr
  rw [hchoose]
  refine ⟨of_decide_eq_true hpr, l1, l2, heq, ?_⟩
  intro e he
  have := hl1 e he
  simpa using this

/-- Witness for C6 at the tied tally of the claim. -/
theorem mark_majority_tiebreak_witness :
    alistGet [("A", 2), ("B", 2)]
        (choose_assigned_emoji [("A", 2), ("B", 2)] ["B", "A"]) =
      some (maxTally [("A", 2), ("B", 2)]) ∧
    ∃ l1 l2, ["B", "A"] =
        l1 ++ choose_assigned_emoji [("A", 2), ("B", 2)] ["B", "A"] :: l2 ∧
      ∀ e ∈ l1, alistGet [("A", 2), ("B", 2)] e ≠
        some (maxTally [("A", 2), ("B", 2)]) :=
  mark_majority_tiebreak.2 [("A", 2), ("B", 2)] ["B", "A"] (by decide)
    ⟨"B", by decide, by decide⟩

theorem alistGet_upd_self {κ β : Type} [DecidableEq κ]
    (l : List (κ × β)) (k : κ) (f : Option β → β) :
    alistGet (alistUpd l k f) k = some (f (alistGet l k)) := by
  induction l with
  | nil => simp [alistUpd, alistGet]
  | cons p rest ih =>
    by_cases hk : p.1 = k
    · simp [alistUpd, alistGet, hk]
    · simp [alistUpd, alistGet, hk, ih]

theorem alistGet_upd_other {κ β : Type} [DecidableEq κ]
    (l : List (κ × β)) (k k' : κ) (f : Option β → β) (h : k' ≠ k) :
    alistGet (alistUpd l k f) k' = alistGet l k' := by
  have hkk : ¬(k = k') := fun h2 => h h2.symm
  induction l with
  | nil => simp [alistUpd, alistGet, hkk]
  | cons p rest ih =>
    obtain ⟨pk, pv⟩ := p
    by_cases hk : pk = k
    · subst hk
      simp [alistUpd, alistGet, hkk]
    · by_cases hk' : pk = k'
      · simp [alistUpd, alistGet, hk, hk', h]
      · simp [alistUpd, alistGet, hk, hk', ih]

theorem mem_insertSet_of_mem (s : List String) (x d : String) (h : d ∈ s) :
    d ∈ insertSet s x := by
  unfold insertSet
  split
  · exact h
  · exact List.mem_append_left _ h

theorem mem_insertSet_self (s : List String) (x : String) :
    x ∈ insertSet s x := by
  unfold insertSet
  split
  · assumption
  · simp

theorem mem_of_mem_insertSet (s : List String) (x d : String)
    (h : d ∈ insertSet s x) : d ∈ s ∨ d = x := by
  unfold insertSet at h
  split at h
  · exact Or.inl h
  · rcases List.mem_append.mp h with h2 | h2
    · exact Or.inl h2
    · exact Or.inr (List.mem_singleton.mp h2)

theorem mem_foldl_insertSet_of_mem_set (ds : List String) :
    ∀ s : List String, ∀ d ∈ s, d ∈ ds.foldl insertSet s := by
  induction ds with
  | nil => intro s d h; exact h
  | cons x t ih =>
    intro s d h
    exact ih (insertSet s x) d (mem_insertSet_of_mem s x d h)

theorem mem_foldl_insertSet_of_mem_list (ds : List String) :
    ∀ s : List String, ∀ d ∈ ds, d ∈ ds.foldl insertSet s := by
  induction ds with
  | nil => intro s d h; simp at h
  | cons x t ih =>
    intro s d h
    rcases List.mem_cons.mp h with rfl | h2
    · exact mem_foldl_insertSet_of_mem_set t (insertSet s d) d
        (mem_insertSet_self s d)
    · exact ih (insertSet s x) d h2

theorem mem_of_mem_foldl_insertSet (ds : List String) :
    ∀ (s : List String) (d : String),
      d ∈ ds.foldl insertSet s → d ∈ s ∨ d ∈ ds := by
  induction ds with
  | nil => intro s d h; exact Or.inl h
  | cons x t ih =>
    intro s d h
    rcases ih (insertSet s x) d h with h2 | h2
    · rcases mem_of_mem_insertSet s x d h2 with h3 | h3
      · exact Or.inl h3
      · subst h3
        exact Or.inr (List.mem_cons_self _ _)
    · exact Or.inr (List.mem_cons_of_mem x h2)

/-- C4: cap enforcement with frame.  In Pass 1, in single-mode Pass 2 and
in dual-mode Pass 2, a row whose extraction exceeds the cap of 14 dates
leaves the whole pass state, hence the date sets, the mark tallies and
the TrackState, exactly unchanged; and in single-mode Pass 2 a qualifying
row whose extraction has exactly 14 dates contributes every one of them
to the participant date set. -/
theorem cap_enforcement_frame :
    (∀ (st : P1State) (u m : String),
      MAX_DATES_PER_MESSAGE < (parse_dates (some m) none).length →
      pass1Step st (u, m) = st) ∧
    (∀ (sched : Option (List String)) (uE : List (String × (String × String)))
        (st : P2SState) (u m : String),
      MAX_DATES_PER_MESSAGE <
          (parse_dates (some m) (alistGet st.last u)).length →
      pass2StepSingle sched uE st (u, m) = st) ∧
    (∀ (uE : List (String × (String × String))) (st : P2DState) (u m : String),
      MAX_DATES_PER_MESSAGE <
          (parse_dates (some m)
            (dualCarry (alistGet st.last (u, "old")) (alistGet st.last (u, "new"))
              (extract_tracks m).1 (extract_tracks m).2)).length →
      pass2StepDual uE st (u, m) = st) ∧
    (∀ (uE : List (String × (String × String))) (st : P2SState) (u m : String)
        (a : String × String),
      alistGet uE u = some a →
      message_contains_emoji m a.1 a.2 = true →
      (parse_dates (some m) (alistGet st.last u)).length = 14 →
      ∃ e, alistGet (pass2StepSingle none uE st (u, m)).users u = some e ∧
        ∀ d ∈ parse_dates (some m) (alistGet st.last u), d ∈ e.dates) := by
  have hne : ∀ (l : List String), MAX_DATES_PER_MESSAGE < l.length →
      l.isEmpty = false := by
    intro l h
    rcases l with _ | _
    · simp [MAX_DATES_PER_MESSAGE] at h
    · simp
  refine ⟨?_, ?_, ?_, ?_⟩
  · intro st u m h
    have hE := hne _ h
    simp [pass1Step, hE, h]
  · intro sched uE st u m h
    have hE := hne _ h
    cases halist : alistGet uE u with
    | none => simp [pass2StepSingle, halist]
    | some a =>
      cases hc : message_contains_emoji m a.1 a.2 with
      | false => simp [pass2StepSingle, halist, hc]
      | true => simp [pass2StepSingle, halist, hc, hE, h]
  · intro uE st u m h
    have hE := hne _ h
    cases halist : alistGet uE u with
    | none => simp [pass2StepDual, halist]
    | some a =>
      cases hc : message_contains_emoji m a.1 a.2 with
      | false => simp [pass2StepDual, halist, hc]
      | true =>
        cases htr1 : (extract_tracks m).1 with
        | false =>
          cases htr2 : (extract_tracks m).2 with
          | false => simp [pass2StepDual, halist, hc, htr1, htr2]
          | true =>
            rw [htr1, htr2] at h
            simp [pass2StepDual, halist, hc, htr1, htr2, hne _ h, h]
        | true =>
          cases htr2 : (extract_tracks m).2 with
          | false =>
            rw [htr1, htr2] at h
            simp [pass2StepDual, halist, hc, htr1, htr2, hne _ h, h]
          | true =>
            rw [htr1, htr2] at h
            simp [pass2StepDual, halist, hc, htr1, htr2, hne _ h, h]
  · intro uE st u m a halist hcont hlen
    have h0 : (parse_dates (some m) (alistGet st.last u)).isEmpty = false := by
      rcases hl : parse_dates (some m) (alistGet st.last u) with _ | _
      · rw [hl] at hlen
        simp at hlen
      · simp
    have hlt : ¬(MAX_DATES_PER_MESSAGE <
        (parse_dates (some m) (alistGet st.last u)).length) := by
      rw [hlen]
      simp [MAX_DATES_PER_MESSAGE]
    have hstep : pass2StepSingle none uE st (u, m) =
        singleUpdate st u a.2 (parse_dates (some m) (alistGet st.last u)) := by
      simp [pass2StepSingle, halist, hcont, h0, hlt]
    rw [hstep]
    simp only [singleUpdate]
    rw [alistGet_upd_self]
    refine ⟨_, rfl, ?_⟩
    intro d hd
    cases hold : alistGet st.users u with
    | none =>
      simp only [hold]
      exact mem_foldl_insertSet_of_mem_list _ [] d hd
    | some e0 =>
      simp only [hold]
      exact mem_foldl_insertSet_of_mem_list _ e0.dates d hd

/-- Witness for C4: a 19-day range leaves each pass state unchanged and a
14-day range contributes all its dates. -/
theorem cap_enforcement_frame_witness :
    pass1Step { counts := [], order := [], raw := [] } ("u", "3/1~3/19") =
        { counts := [], order := [], raw := [] } ∧
    pass2StepSingle none [("u", ("😀", "😀"))] { users := [], last := [] }
        ("u", "3/1~3/19😀") = { users := [], last := [] } ∧
    pass2StepDual [("u", ("😀", "😀"))] { users := [], last := [] }
        ("u", "3/1~3/19 구약 😀") = { users := [], last := [] } ∧
    ∃ e, alistGet (pass2StepSingle none [("u", ("😀", "😀"))]
          { users := [], last := [] } ("u", "3/1~3/14😀")).users "u" = some e ∧
      ∀ d ∈ parse_dates (some "3/1~3/14😀")
          (alistGet (P2SState.mk [] []).last "u"), d ∈ e.dates := by
  refine ⟨?_, ?_, ?_, ?_⟩
  · exact cap_enforcement_frame.1 _ "u" _ (by decide)
  · exact cap_enforcement_frame.2.1 none _ _ "u" _ (by decide)
  · exact cap_enforcement_frame.2.2.1 _ _ "u" _ (by decide)
  · exact cap_enforcement_frame.2.2.2 _ _ "u" _ ("😀", "😀") (by decide)
      (by decide) (by decide)

theorem foldl_invariant {σ α : Type} (P : σ → Prop) (step : σ → α → σ)
    (l : List α) (hstep : ∀ st x, P st → P (step st x)) :
    ∀ st, P st → P (l.foldl step st) := by
  induction l with
  | nil => intro st h; exact h
  | cons x t ih =>
    intro st h
    exact ih (step st x) (hstep st x h)

/-- Soundness invariant of single mode under a bound calendar: every
collected date of every participant lies in the calendar. -/
def CalInv (cal : List String) (users : List (String × SingleEntry)) : Prop :=
  ∀ u e, alistGet users u = some e → ∀ d ∈ e.dates, d ∈ cal

/-- Soundness invariant of dual mode: old-track dates lie in the
old-testament calendar and new-track dates in the new-testament one. -/
def CalInvD (users : List (String × DualEntry)) : Prop :=
  ∀ u e, alistGet users u = some e →
    (∀ d ∈ e.dates_old, d ∈ BIBLE_DATES) ∧ (∀ d ∈ e.dates_new, d ∈ NT_DATES)

theorem singleUpdate_calInv (cal : List String) (st : P2SState)
    (user raw : String) (dates2 : List String)
    (h2 : ∀ d ∈ dates2, d ∈ cal) (hP : CalInv cal st.users) :
    CalInv cal (singleUpdate st user raw dates2).users := by
  intro u e he d hd
  simp only [singleUpdate] at he
  by_cases hu : u = user
  · subst hu
    rw [alistGet_upd_self] at he
    injection he with he2
    subst he2
    cases hold : alistGet st.users u with
    | none =>
      simp only [hold] at hd
      rcases mem_of_mem_foldl_insertSet dates2 [] d hd with h3 | h3
      · simp at h3
      · exact h2 d h3
    | some e0 =>
      simp only [hold] at hd
      rcases mem_of_mem_foldl_insertSet dates2 e0.dates d hd with h3 | h3
      · exact hP u e0 hold d h3
      · exact h2 d h3
  · rw [alistGet_upd_other _ _ _ _ hu] at he
    exact hP u e he d hd

theorem pass2StepSingle_cases (cal : List String)
    (uE : List (String × (String × String))) (st : P2SState)
    (row : String × String) :
    pass2StepSingle (some cal) uE st row = st ∨
    ∃ raw dates2,
      dates2 = (parse_dates (some row.2) (alistGet st.last row.1)).filter
        (fun d => decide (d ∈ cal)) ∧
      pass2StepSingle (some cal) uE st row = singleUpdate st row.1 raw dates2 := by
  cases halist : alistGet uE row.1 with
  | none =>
    left
    simp [pass2StepSingle, halist]
  | some a =>
    cases hc : message_contains_emoji row.2 a.1 a.2 with
    | false =>
      left
      simp [pass2StepSingle, halist, hc]
    | true =>
      cases hE : (parse_dates (some row.2) (alistGet st.last row.1)).isEmpty with
      | true =>
        left
        simp [pass2StepSingle, halist, hc, hE]
      | false =>
        by_cases hlen : MAX_DATES_PER_MESSAGE <
            (parse_dates (some row.2) (alistGet st.last row.1)).length
        · left
          simp [pass2StepSingle, halist, hc, hE, hlen]
        · cases hE2 : ((parse_dates (some row.2) (alistGet st.last row.1)).filter
              (fun d => decide (d ∈ cal))).isEmpty with
          | true =>
            left
            simp [pass2StepSingle, halist, hc, hE, hlen, hE2]
          | false =>
            right
            exact ⟨a.2, _, rfl,
              by simp [pass2StepSingle, halist, hc, hE, hlen, hE2]⟩

theorem pass2StepSingle_calInv (cal : List String)
    (uE : List (String × (String × String))) :
    ∀ (st : P2SState) (row : String × String), CalInv cal st.users →
      CalInv cal (pass2StepSingle (some cal) uE st row).users := by
  intro st row hP
  rcases pass2StepSingle_cases cal uE st row with heq | ⟨raw, dates2, hd2, heq⟩
  · rw [heq]
    exact hP
  · rw [heq]
    apply singleUpdate_calInv _ _ _ _ _ _ hP
    intro d hd
    rw [hd2] at hd
    exact of_decide_eq_true (List.mem_filter.mp hd).2

theorem dualUpdate_calInvD (st : P2DState) (user raw : String)
    (dOld dNew : List String)
    (ho : ∀ d ∈ dOld, d ∈ BIBLE_DATES) (hn : ∀ d ∈ dNew, d ∈ NT_DATES)
    (hP : CalInvD st.users) : CalInvD (dualUpdate st user raw dOld dNew).users := by
  intro u e he
  simp only [dualUpdate] at he
  by_cases hu : u = user
  · subst hu
    rw [alistGet_upd_self] at he
    injection he with he2
    subst he2
    cases hold : alistGet st.users u with
    | none =>
      simp only [hold]
      constructor
      · intro d hd
        rcases mem_of_mem_foldl_insertSet dOld [] d hd with h3 | h3
        · simp at h3
        · exact ho d h3
      · intro d hd
        rcases mem_of_mem_foldl_insertSet dNew [] d hd with h3 | h3
        · simp at h3
        · exact hn d h3
    | some e0 =>
      simp only [hold]
      constructor
      · intro d hd
        rcases mem_of_mem_foldl_insertSet dOld e0.dates_old d hd with h3 | h3
        · exact (hP u e0 hold).1 d h3
        · exact ho d h3
      · intro d hd
        rcases mem_of_mem_foldl_insertSet dNew e0.dates_new d hd with h3 | h3
        · exact (hP u e0 hold).2 d h3
        · exact hn d h3
  · rw [alistGet_upd_other _ _ _ _ hu] at he
    exact hP u e he

theorem pass2StepDual_cases (uE : List (String × (String × String)))
    (st : P2DState) (row : String × String) :
    pass2StepDual uE st row = st ∨
    ∃ raw dOld dNew,
      (∀ d ∈ dOld, d ∈ BIBLE_DATES) ∧ (∀ d ∈ dNew, d ∈ NT_DATES) ∧
      pass2StepDual uE st row = dualUpdate st row.1 raw dOld dNew := by
  cases halist : alistGet uE row.1 with
  | none =>
    left
    simp [pass2StepDual, halist]
  | some a =>
    cases hc : message_contains_emoji row.2 a.1 a.2 with
    | false =>
      left
      simp [pass2StepDual, halist, hc]
    | true =>
      cases htr : (!(extract_tracks row.2).1 && !(extract_tracks row.2).2) with
      | true =>
        left
        simp [pass2StepDual, halist, hc, htr]
      | false =>
        cases hE : (parse_dates (some row.2)
            (dualCarry (alistGet st.last (row.1, "old"))
              (alistGet st.last (row.1, "new"))
              (extract_tracks row.2).1 (extract_tracks row.2).2)).isEmpty with
        | true =>
          left
          simp [pass2StepDual, halist, hc, htr, hE]
        | false =>
          by_cases hlen : MAX_DATES_PER_MESSAGE <
              (parse_dates (some row.2)
                (dualCarry (alistGet st.last (row.1, "old"))
                  (alistGet st.last (row.1, "new"))
                  (extract_tracks row.2).1 (extract_tracks row.2).2)).length
          · left
            simp [pass2StepDual, halist, hc, htr, hE, hlen]
          · set dts := parse_dates (some row.2)
              (dualCarry (alistGet st.last (row.1, "old"))
                (alistGet st.last (row.1, "new"))
                (extract_tracks row.2).1 (extract_tracks row.2).2) with hdts
            set dOld := if (extract_tracks row.2).1 then
              dts.filter (fun d => decide (d ∈ BIBLE_DATES)) else [] with hdo
            set dNew := if (extract_tracks row.2).2 then
              dts.filter (fun d => decide (d ∈ NT_DATES)) else [] with hdn
            cases hE2 : (dOld.isEmpty && dNew.isEmpty) with
            | true =>
              left
              simp only [pass2StepDual, halist, hc, htr, Bool.not_true,
                ← hdts, ← hdo, ← hdn] at *
              simp [hE, hlen, hE2]
            | false =>
              right
              refine ⟨a.2, dOld, dNew, ?_, ?_, ?_⟩
              · intro d hd
                rw [hdo] at hd
                split at hd
                · exact of_decide_eq_true (List.mem_filter.mp hd).2
                · simp at hd
              · intro d hd
                rw [hdn] at hd
                split at hd
                · exact of_decide_eq_true (List.mem_filter.mp hd).2
                · simp at hd
              · simp only [pass2StepDual, halist, hc, htr, Bool.not_true,
                  ← hdts, ← hdo, ← hdn] at *
                simp [hE, hlen, hE2]

theorem pass2StepDual_calInvD (uE : List (String × (String × String))) :
    ∀ (st : P2DState) (row : String × String), CalInvD st.users →
      CalInvD (pass2StepDual uE st row).users := by
  intro st row hP
  rcases pass2StepDual_cases uE st row with heq | ⟨raw, dOld, dNew, ho, hn, heq⟩
  · rw [heq]
    exact hP
  · rw [heq]
    exact dualUpdate_calInvD st row.1 raw dOld dNew ho hn hP

theorem any_contains_normalize (rows : List (String × String)) (pat : List Char) :
    ((rows.map (fun r => (normalize_user_name r.1, r.2))).any
        (fun r => containsSeq r.2.data pat)) =
      rows.any (fun r => containsSeq r.2.data pat) := by
  induction rows with
  | nil => rfl
  | cons x t ih => simp [ih]

theorem detect_schedule_normalize (rows : List (String × String)) :
    detect_schedule (rows.map (fun r => (normalize_user_name r.1, r.2))) =
      detect_schedule rows := by
  simp only [detect_schedule]
  rw [any_contains_normalize, any_contains_normalize, any_contains_normalize,
    any_contains_normalize]

/-- C7: calendar filtering is sound.  When single mode detects a
calendar, every output date of every participant lies in it; in dual
mode every old-track output date lies in the old-testament calendar and
every new-track output date in the new-testament calendar; and the
Sunday 2/8 belongs to neither calendar, so a confirmed 2/8 can never
appear in a calendar-bound output set. -/
theorem calendar_filtering_sound :
    (∀ (rows : List (String × String)) (cal : List String),
      detect_schedule rows = some cal →
      ∀ u e, alistGet (analyze_chat_single rows) u = some e →
        ∀ d ∈ e.dates, d ∈ cal) ∧
    (∀ (rows : List (String × String)) (u : String) (e : DualEntry),
      alistGet (analyze_chat_dual rows) u = some e →
        (∀ d ∈ e.dates_old, d ∈ BIBLE_DATES) ∧
        (∀ d ∈ e.dates_new, d ∈ NT_DATES)) ∧
    "2/8" ∉ BIBLE_DATES ∧ "2/8" ∉ NT_DATES := by
  refine ⟨?_, ?_, by decide, by decide⟩
  · intro rows cal hdet u e he d hd
    simp only [analyze_chat_single] at he
    split at he
    · simp [alistGet] at he
    · split at he
      · simp [alistGet] at he
      · rw [detect_schedule_normalize, hdet] at he
        have hinv := foldl_invariant (fun st => CalInv cal st.users)
          (pass2StepSingle (some cal)
            (computeUserEmojis
              ((rows.map fun r => (normalize_user_name r.1, r.2)).foldl pass1Step
                { counts := [], order := [], raw := [] })))
          (rows.map fun r => (normalize_user_name r.1, r.2))
          (fun st x h => pass2StepSingle_calInv cal _ st x h)
          { users := [], last := [] }
          (by intro u2 e2 he2 d2 hd2; simp [alistGet] at he2)
        exact hinv u e he d hd
  · intro rows u e he
    simp only [analyze_chat_dual] at he
    split at he
    · simp [alistGet] at he
    · split at he
      · simp [alistGet] at he
      · have hinv := foldl_invariant (fun st => CalInvD st.users)
          (pass2StepDual
            (computeUserEmojis
              ((rows.map fun r => (normalize_user_name r.1, r.2)).foldl pass1Step
                { counts := [], order := [], raw := [] })))
          (rows.map fun r => (normalize_user_name r.1, r.2))
          (fun st x h => pass2StepDual_calInvD _ st x h)
          { users := [], last := [] }
          (by intro u2 e2 he2; simp [alistGet] at he2)
        exact hinv u e he

/-- Witness for C7: a transcript whose keywords select the old-testament
plan, with a participant whose output contains 2/2; the theorem places
that date inside the detected calendar. -/
theorem calendar_filtering_sound_witness : "2/2" ∈ BIBLE_DATES :=
  calendar_filtering_sound.1
    [("김", "창세기 2/2 😀"), ("김", "출애굽기 2/3 😀")] BIBLE_DATES
    (by decide) "김" { dates := ["2/2", "2/3"], emoji := "😀" }
    (by decide) "2/2" (by decide)

/-! Exception model (claim C8).  Python values that may be None are
Options; each operation of analyze_chat that raises when it meets a None
where it expects a string is modelled in an Except monad: name.replace
inside normalize_user_name raises AttributeError on a None sender,
message.rstrip inside extract_trailing_emoji raises AttributeError on a
None message, and both the in operator of message_contains_emoji and the
keyword scans of detect_schedule raise TypeError on a None message.  For
a string message the remainder of a row step is the total function
proved above. -/

def normalize_user_nameE : Option String → Except String String
  | none => .error "AttributeError: replace on None"
  | some s => .ok (normalize_user_name s)

def extract_trailing_emojiE : Option String → Except String (Option String)
  | none => .error "AttributeError: rstrip on None"
  | some s => .ok (extract_trailing_emoji s)

/-- Pass-1 row step over a possibly-None message: parse_dates absorbs a
None message into an empty extraction, so the mark extraction that would
raise is only reached on string messages. -/
def pass1StepE (st : P1State) (row : String × Option String) :
    Except String P1State :=
  let dates := parse_dates row.2 none
  if dates.isEmpty then .ok st
  else if MAX_DATES_PER_MESSAGE < dates.length then .ok st
  else
    match extract_trailing_emojiE row.2 with
    | .error e => .error e
    | .ok none => .ok st
    | .ok (some te) => .ok (pass1Tally st row.1 te)

/-- Pass-2 single-mode row step over a possibly-None message: an
unassigned participant is skipped before the message is touched, and for
an assigned participant the mark containment check is the first use of
the message and raises on None. -/
def pass2StepSingleE (sched : Option (List String))
    (uE : List (String × (String × String)))
    (st : P2SState) (row : String × Option String) : Except String P2SState :=
  match alistGet uE row.1 with
  | none => .ok st
  | some _ =>
    match row.2 with
    | none => .error "TypeError: in on None"
    | some m => .ok (pass2StepSingle sched uE st (row.1, m))

/-- Pass-2 dual-mode row step over a possibly-None message, as in single
mode. -/
def pass2StepDualE (uE : List (String × (String × String)))
    (st : P2DState) (row : String × Option String) : Except String P2DState :=
  match alistGet uE row.1 with
  | none => .ok st
  | some _ =>
    match row.2 with
    | none => .error "TypeError: in on None"
    | some m => .ok (pass2StepDual uE st (row.1, m))

def mapME {α β : Type} (f : α → Except String β) :
    List α → Except String (List β)
  | [] => .ok []
  | x :: t =>
    match f x with
    | .error e => .error e
    | .ok y =>
      match mapME f t with
      | .error e => .error e
      | .ok ys => .ok (y :: ys)

def foldlE {σ α : Type} (f : σ → α → Except String σ) :
    σ → List α → Except String σ
  | st, [] => .ok st
  | st, x :: t =>
    match f st x with
    | .error e => .error e
    | .ok st2 => foldlE f st2 t

/-- detect_schedule over possibly-None messages: the keyword containment
scan raises on the first None message. -/
def detect_scheduleE (rows : List (String × Option String)) :
    Except String (Option (List String)) :=
  match mapME (fun r =>
      match r.2 with
      | none => Except.error "TypeError: in on None"
      | some m => Except.ok (r.1, m)) rows with
  | .error e => .error e
  | .ok rows2 => .ok (detect_schedule rows2)

/-- The sender-normalization step of the row list, which is the first
touch of each row in analyze_chat. -/
def normRowE (r : Option String × Option String) :
    Except String (String × Option String) :=
  match normalize_user_nameE r.1 with
  | .error e => .error e
  | .ok u => .ok (u, r.2)

/-- analyze_chat in single mode over possibly-None senders and messages,
with every raising operation made explicit. -/
def analyze_chat_singleE (rows : List (Option String × Option String)) :
    Except String (List (String × SingleEntry)) :=
  match mapME normRowE rows with
  | .error e => .error e
  | .ok rows2 =>
    if rows2.isEmpty then .ok []
    else
      match foldlE pass1StepE { counts := [], order := [], raw := [] } rows2 with
      | .error e => .error e
      | .ok st1 =>
        let uE := computeUserEmojis st1
        if uE.isEmpty then .ok []
        else
          match detect_scheduleE rows2 with
          | .error e => .error e
          | .ok sched =>
            match foldlE (pass2StepSingleE sched uE)
                { users := [], last := [] } rows2 with
            | .error e => .error e
            | .ok st2 => .ok st2.users

/-- analyze_chat in dual mode over possibly-None senders and messages. -/
def analyze_chat_dualE (rows : List (Option String × Option String)) :
    Except String (List (String × DualEntry)) :=
  match mapME normRowE rows with
  | .error e => .error e
  | .ok rows2 =>
    if rows2.isEmpty then .ok []
    else
      match foldlE pass1StepE { counts := [], order := [], raw := [] } rows2 with
      | .error e => .error e
      | .ok st1 =>
        let uE := computeUserEmojis st1
        if uE.isEmpty then .ok []
        else
          match foldlE (pass2StepDualE uE) { users := [], last := [] } rows2 with
          | .error e => .error e
          | .ok st2 => .ok st2.users

theorem pass1StepE_some (st : P1State) (u m : String) :
    pass1StepE st (u, some m) = .ok (pass1Step st (u, m)) := by
  simp only [pass1StepE, pass1Step, extract_trailing_emojiE]
  by_cases h1 : (parse_dates (some m) none).isEmpty
  · simp [h1]
  · by_cases h2 : MAX_DATES_PER_MESSAGE < (parse_dates (some m) none).length
    · simp [h1, h2]
    · cases extract_trailing_emoji m <;> simp [h1, h2]

theorem pass2StepSingleE_some (sched : Option (List String))
    (uE : List (String × (String × String))) (st : P2SState) (u m : String) :
    pass2StepSingleE sched uE st (u, some m) =
      .ok (pass2StepSingle sched uE st (u, m)) := by
  cases h : alistGet uE u with
  | none => simp [pass2StepSingleE, pass2StepSingle, h]
  | some a => simp [pass2StepSingleE, h]

theorem pass2StepDualE_some (uE : List (String × (String × String)))
    (st : P2DState) (u m : String) :
    pass2StepDualE uE st (u, some m) = .ok (pass2StepDual uE st (u, m)) := by
  cases h : alistGet uE u with
  | none => simp [pass2StepDualE, pass2StepDual, h]
  | some a => simp [pass2StepDualE, h]

theorem foldlE_ok {σ : Type} (stepE : σ → String × Option String → Except String σ)
    (step : σ → String × String → σ)
    (hstep : ∀ st u m, stepE st (u, some m) = .ok (step st (u, m))) :
    ∀ (l : List (String × String)) (st : σ),
      foldlE stepE st (l.map (fun r => (r.1, some r.2))) = .ok (l.foldl step st) := by
  intro l
  induction l with
  | nil => intro st; rfl
  | cons x t ih =>
    intro st
    simp only [List.map_cons, foldlE, hstep st x.1 x.2, List.foldl_cons]
    exact ih (step st (x.1, x.2))

theorem mapME_unwrap (l : List (String × String)) :
    mapME (fun r =>
        match r.2 with
        | none => Except.error "TypeError: in on None"
        | some m => Except.ok (r.1, m)) (l.map (fun r => (r.1, some r.2))) =
      .ok l := by
  induction l with
  | nil => rfl
  | cons x t ih => simp [mapME, ih]

theorem detect_scheduleE_some (l : List (String × String)) :
    detect_scheduleE (l.map (fun r => (r.1, some r.2))) =
      .ok (detect_schedule l) := by
  simp [detect_scheduleE, mapME_unwrap]

theorem mapME_normalize (rows : List (String × String)) :
    mapME normRowE (rows.map (fun r => (some r.1, some r.2))) =
      .ok (rows.map (fun r => (normalize_user_name r.1, some r.2))) := by
  induction rows with
  | nil => rfl
  | cons x t ih =>
    have hx : normRowE ((fun r => (some r.1, some r.2)) x) =
        Except.ok (normalize_user_name x.1, some x.2) := rfl
    simp only [List.map_cons, mapME, hx, ih]

theorem rows_map_some (rows : List (String × String)) :
    rows.map (fun r => (normalize_user_name r.1, some r.2)) =
      (rows.map (fun r => (normalize_user_name r.1, r.2))).map
        (fun r => (r.1, some r.2)) := by
  induction rows with
  | nil => rfl
  | cons x t ih => simp only [List.map_cons, ih]

/-- The map by name normalization preserves emptiness. -/
theorem isEmpty_map {α β : Type} (f : α → β) (l : List α) :
    (l.map f).isEmpty = l.isEmpty := by
  cases l <;> rfl

theorem foldlE_pass1 (l : List (String × String)) (st : P1State) :
    foldlE pass1StepE st (l.map (fun r => (r.1, some r.2))) =
      .ok (l.foldl pass1Step st) :=
  foldlE_ok pass1StepE pass1Step pass1StepE_some l st

theorem foldlE_pass2Single (sched : Option (List String))
    (uE : List (String × (String × String)))
    (l : List (String × String)) (st : P2SState) :
    foldlE (pass2StepSingleE sched uE) st (l.map (fun r => (r.1, some r.2))) =
      .ok (l.foldl (pass2StepSingle sched uE) st) :=
  foldlE_ok _ _ (pass2StepSingleE_some sched uE) l st

theorem foldlE_pass2Dual (uE : List (String × (String × String)))
    (l : List (String × String)) (st : P2DState) :
    foldlE (pass2StepDualE uE) st (l.map (fun r => (r.1, some r.2))) =
      .ok (l.foldl (pass2StepDual uE) st) :=
  foldlE_ok _ _ (pass2StepDualE_some uE) l st

/-- C8 counterexample: a row list with a None sender makes aggregation
raise (the AttributeError of name.replace inside normalize_user_name), so
the claim that no input row list can produce a caller-visible exception
is false. -/
theorem aggregate_raises_on_none_sender :
    analyze_chat_singleE [(none, some "3/15😀")] =
      .error "AttributeError: replace on None" := rfl

/-- C8 amended: for row lists whose senders and messages are genuine
strings (possibly empty or malformed), aggregation in both modes never
raises and agrees with the total model, and a None or empty message
yields an empty extraction at the date extractor. -/
theorem no_exception_on_string_rows :
    (∀ rows : List (String × String),
      analyze_chat_singleE (rows.map (fun r => (some r.1, some r.2))) =
        .ok (analyze_chat_single rows)) ∧
    (∀ rows : List (String × String),
      analyze_chat_dualE (rows.map (fun r => (some r.1, some r.2))) =
        .ok (analyze_chat_dual rows)) ∧
    (∀ c : Option (Nat × Nat), parse_dates none c = []) ∧
    (∀ c : Option (Nat × Nat), parse_dates (some "") c = []) := by
  refine ⟨?_, ?_, fun c => rfl, fun c => rfl⟩
  · intro rows
    simp only [analyze_chat_singleE, analyze_chat_single, mapME_normalize,
      rows_map_some, isEmpty_map, foldlE_pass1, detect_scheduleE_some,
      foldlE_pass2Single]
    by_cases h1 : (rows.isEmpty = true)
    · rw [if_pos h1, if_pos h1]
    · rw [if_neg h1, if_neg h1]
      by_cases h2 : ((computeUserEmojis
          ((rows.map (fun r => (normalize_user_name r.1, r.2))).foldl pass1Step
            { counts := [], order := [], raw := [] })).isEmpty = true)
      · rw [if_pos h2, if_pos h2]
      · rw [if_neg h2, if_neg h2]
  · intro rows
    simp only [analyze_chat_dualE, analyze_chat_dual, mapME_normalize,
      rows_map_some, isEmpty_map, foldlE_pass1, foldlE_pass2Dual]
    by_cases h1 : (rows.isEmpty = true)
    · rw [if_pos h1, if_pos h1]
    · rw [if_neg h1, if_neg h1]
      by_cases h2 : ((computeUserEmojis
          ((rows.map (fun r => (normalize_user_name r.1, r.2))).foldl pass1Step
            { counts := [], order := [], raw := [] })).isEmpty = true)
      · rw [if_pos h2, if_pos h2]
      · rw [if_neg h2, if_neg h2]

end HB
